import Mathlib

/-!
Verification development for the postgres unit-of-work system
(`pkg/postgres/unit_of_work.go`, `pkg/postgres/factory.go`,
`pkg/identifier/identifier.go`, `pkg/domain/base.go`, `pkg/errors`).

The Go code is shallowly embedded: the database table is a list of rows,
GORM's soft-delete default scope is the `deletedAt` filter, the transaction
flag pair `(inTx, tx)` of `UnitOfWork` becomes `UoWState`, and Go errors
(`errors.New` sentinels, `fmt.Errorf` with and without `%w`) become the
`GoError` inductive.  Go `panic` is modelled by an `Option`/dedicated
constructor so that "never panics" is a provable statement.
-/

/-- Scalar comparison values (Go `interface{}` arguments that are not
slices): the comparable payloads the verified code stores and renders. -/
inductive Prim where
  | int (n : Int)
  | str (s : String)
  | bool (b : Bool)
  | null
deriving DecidableEq, Repr

/-- Dynamic values stored in identifier query maps and entity columns
(Go `interface{}` in `pkg/identifier/identifier.go`): a scalar, or a
`[]interface{}` slice of scalars as stored by `In` and `Between`. -/
inductive Value where
  | prim (p : Prim)
  | list (vs : List Prim)
deriving DecidableEq, Repr

/-- Go panics that the embedded code can raise.  `negativeRepeatCount` is the
panic of `strings.Repeat` when called with a negative count. -/
inductive GoPanic where
  | negativeRepeatCount
deriving DecidableEq, Repr

/-- Model of Go errors as produced by the repository:
`sentinel` is `errors.New(msg)` (compared by identity),
`errorf` is `fmt.Errorf(msg)` without `%w`,
`wrap` is `fmt.Errorf(msg+": %w", cause)`. -/
inductive GoError where
  | sentinel (msg : String)
  | errorf (msg : String)
  | wrap (msg : String) (cause : GoError)
deriving DecidableEq, Repr

/-- Model of Go `errors.Is`: identity on the error, else unwrap `%w` chains.
(The `*UnitOfWorkError` branch of the taxonomy's helpers is not modelled:
no code under verification ever constructs a `UnitOfWorkError`.) -/
def GoError.is (e t : GoError) : Bool :=
  match e with
  | .wrap m c => decide (GoError.wrap m c = t) || c.is t
  | .sentinel m => decide (GoError.sentinel m = t)
  | .errorf m => decide (GoError.errorf m = t)

namespace errs

/-- Sentinel from `pkg/errors`: `ErrTransactionNotStarted`. -/
def ErrTransactionNotStarted : GoError := .sentinel "transaction has not been started"

/-- Sentinel from `pkg/errors`: `ErrTransactionAlreadyOpen`. -/
def ErrTransactionAlreadyOpen : GoError := .sentinel "transaction is already open"

/-- Sentinel from `pkg/errors`: `ErrTransactionCommitFailed`. -/
def ErrTransactionCommitFailed : GoError := .sentinel "failed to commit transaction"

/-- Sentinel from `pkg/errors`: `ErrTransactionRollbackFailed`. -/
def ErrTransactionRollbackFailed : GoError := .sentinel "failed to rollback transaction"

/-- Model of `errors.IsTransaction` from `pkg/errors`: matches any of the four
transaction sentinels through the wrap chain (the `errors.As` branch for
`*UnitOfWorkError` is dead code for the operations verified here). -/
def IsTransaction (e : GoError) : Bool :=
  e.is ErrTransactionNotStarted || e.is ErrTransactionAlreadyOpen ||
    e.is ErrTransactionCommitFailed || e.is ErrTransactionRollbackFailed

end errs

namespace domain

/-- A persisted row of the entity table.  Mirrors the `BaseModel` capability
set and the `TestUser` column layout: `ID int` (primary key), `Slug string`
(unique index), `Name string`, and `DeletedAt gorm.DeletedAt` modelled as
`Option Nat` (`none` = live, `some t` = soft-deleted at time `t`).  Columns
that no verified claim observes (email, timestamps) are omitted. -/
structure Entity where
  id : Nat
  slug : String
  name : String
  deletedAt : Option Nat
deriving DecidableEq, Repr

/-- Sort direction (`pkg/domain/base.go`: `SortAsc`/`SortDesc`). -/
inductive SortDirection where
  | asc
  | desc
deriving DecidableEq, Repr

/-- The string GORM receives for a direction (`domain.SortDirection` values). -/
def SortDirection.render : SortDirection → String
  | .asc => "asc"
  | .desc => "desc"

/-- Model of `domain.QueryParams[T]`.  `filter = none` models a zero-value
`Filter` (the `reflect.ValueOf(query.Filter).IsZero()` test in
`FindAllWithPagination`); otherwise the filter is the row predicate the
backend evaluates for `db.Where(query.Filter)`.  `sort` is the iteration
sequence of the Go `SortMap`.  `includes` are GORM preloads: they eager-load
relations and change neither the row set nor the count, so the executable
model carries but ignores them.  `limit`/`offset` are Go `int`s. -/
structure QueryParams where
  filter : Option (Entity → Bool)
  sort : List (String × SortDirection)
  includes : List String
  limit : Int
  offset : Int

end domain

namespace postgres

open domain

/-- Rows visible under GORM's default scope: models that the entity type has a
`gorm.DeletedAt` column, so every non-`Unscoped` query adds
`deleted_at IS NULL`. -/
def liveRows (db : List Entity) : List Entity :=
  db.filter fun e => e.deletedAt.isNone

/-- Column values an `ORDER BY` key can address on the modelled entity. -/
def fieldValue (e : Entity) : String → Option Prim
  | "id" => some (.int (e.id : Int))
  | "slug" => some (.str e.slug)
  | "name" => some (.str e.name)
  | _ => none

/-- Boolean comparison of character lists by code point, used to give the
model a concrete deterministic `ORDER BY` semantics for string columns. -/
def charsLE : List Char → List Char → Bool
  | [], _ => true
  | _ :: _, [] => false
  | c :: cs, d :: ds =>
    if c.val < d.val then true else if d.val < c.val then false else charsLE cs ds

/-- Ordering on sort-key values (backend collation, modelled concretely). -/
def valLE : Option Prim → Option Prim → Bool
  | none, _ => true
  | some _, none => false
  | some (.int a), some (.int b) => decide (a ≤ b)
  | some (.str a), some (.str b) => charsLE a.data b.data
  | some _, some _ => true

/-- Lexicographic comparison along the `ORDER BY` key list produced by the
`db.Order(...)` chain: the first key added is the primary sort key. -/
def keyLE : List (String × SortDirection) → Entity → Entity → Bool
  | [], _, _ => true
  | (f, d) :: rest, a, b =>
    let va := fieldValue a f
    let vb := fieldValue b f
    if va = vb then keyLE rest a b
    else
      match d with
      | .asc => valLE va vb
      | .desc => valLE vb va

/-- Stable insertion of one row into an already sorted list. -/
def insertSorted (le : Entity → Entity → Bool) (x : Entity) : List Entity → List Entity
  | [] => [x]
  | y :: ys => if le x y then x :: y :: ys else y :: insertSorted le x ys

/-- Stable sort used as the model of the backend's `ORDER BY`. -/
def insertionSort (le : Entity → Entity → Bool) : List Entity → List Entity
  | [] => []
  | x :: xs => insertSorted le x (insertionSort le xs)

/-- Effect of the `query.Sort != nil` loop of `FindAllWithPagination`
(part_005 lines 122-127): no keys means no `ORDER BY`. -/
def applySort (sort : List (String × SortDirection)) (rows : List Entity) : List Entity :=
  if sort.isEmpty then rows else insertionSort (keyLE sort) rows

/-- Where-clause predicate of `db.Where(query.Filter)` guarded by the
`IsZero` test: a zero-value filter imposes no condition. -/
def filterFn : Option (Entity → Bool) → Entity → Bool
  | none => fun _ => true
  | some f => f

/-- SQL `LIMIT`/`OFFSET` semantics for the two conditional calls
`if query.Limit > 0 { db.Limit }` and `if query.Offset > 0 { db.Offset }`
(part_005 lines 130-135): the backend skips `offset` rows, then returns at
most `limit` rows. -/
def paginate (limit offset : Int) (rows : List Entity) : List Entity :=
  let afterOffset := if offset > 0 then rows.drop offset.toNat else rows
  if limit > 0 then afterOffset.take limit.toNat else afterOffset

/-- Model of `UnitOfWork.FindAllWithPagination` (part_005 lines 106-147):
filter under the default live scope, count the full filtered population,
then sort, then limit/offset, then materialize the page.  Returns
`(page, total)` where `total` models the `uint(total)` result. -/
def findAllWithPagination (db : List Entity) (qp : QueryParams) : List Entity × Nat :=
  let filtered := (liveRows db).filter (filterFn qp.filter)
  let total := filtered.length
  let page := paginate qp.limit qp.offset (applySort qp.sort filtered)
  (page, total)

/-- Model of `UnitOfWork.FindAll` (part_005 lines 94-103): all live rows. -/
def findAll (db : List Entity) : List Entity :=
  liveRows db

/-- Model of `UnitOfWork.FindOneById` (part_005 lines 162-171):
`db.First(&entity, id)` under the default scope; `none` models
`gorm.ErrRecordNotFound`. -/
def findOneById (db : List Entity) (i : Nat) : Option Entity :=
  (liveRows db).find? fun e => e.id == i

/-- Model of `UnitOfWork.GetTrashed` (part_005 lines 332-341):
`Unscoped().Where("deleted_at IS NOT NULL")`. -/
def getTrashed (db : List Entity) : List Entity :=
  db.filter fun e => e.deletedAt.isSome

/-- Model of `UnitOfWork.SoftDelete` (part_005 lines 240-257).  The predicate
`p` is the condition of `Where(queryMap)`.  First `First(&entity)` fetches the
first live match (error if none); then `Where(queryMap).Delete(&entity)`
soft-deletes: GORM adds the fetched row's primary key to the conditions and
its soft-delete callback restricts to live rows, so rows matching
`p`, carrying the fetched id, and still live get `deleted_at = now`. -/
def softDelete (p : Entity → Bool) (now : Nat) (db : List Entity) :
    Option (Entity × List Entity) :=
  match (liveRows db).find? p with
  | none => none
  | some e =>
    some (e, db.map fun x =>
      if p x && x.id == e.id && x.deletedAt.isNone then { x with deletedAt := some now } else x)

/-- Model of `UnitOfWork.Restore` (part_005 lines 383-400).  First
`Unscoped().Where(queryMap).Where("deleted_at IS NOT NULL").First` fetches the
first trashed match (error if none); then
`Unscoped().Model(&entity).Update("deleted_at", nil)` clears the mark on the
rows carrying the fetched primary key. -/
def restore (p : Entity → Bool) (db : List Entity) :
    Option (Entity × List Entity) :=
  match (db.filter fun e => e.deletedAt.isSome).find? p with
  | none => none
  | some e =>
    some (e, db.map fun x =>
      if x.id == e.id then { x with deletedAt := none } else x)

/-- Slug column of every row, live or trashed: the population the `Slug`
unique index (`gorm:"uniqueIndex"` on `TestUser`) constrains. -/
def slugs (db : List Entity) : List String :=
  db.map fun e => e.slug

/-- One `INSERT` against the unique index: fails (constraint violation) when
the slug already exists, otherwise appends the row. -/
def insertOne (db : List Entity) (e : Entity) : Option (List Entity) :=
  if e.slug ∈ slugs db then none else some (db ++ [e])

/-- Sequential insertion of a batch, short-circuiting on the first failure
(the per-batch create executed by GORM's create callback). -/
def insertAll : List Entity → List Entity → Option (List Entity)
  | db, [] => some db
  | db, e :: rest =>
    match insertOne db e with
    | none => none
    | some db2 => insertAll db2 rest

/-- Model of `gorm.CreateInBatches(&entities, 100)` as called by
`UnitOfWork.BulkInsert` (part_005 line 283): the batch loop inserts chunks of
100, aborting on the first error.  The result is only the final row set; the
all-or-nothing transaction around the loop is applied by `bulkInsert` below. -/
def createInBatches (db : List Entity) (batch : List Entity) : Option (List Entity) :=
  if h : batch = [] then some db
  else
    match insertAll db (batch.take 100) with
    | none => none
    | some db2 => createInBatches db2 (batch.drop 100)
termination_by batch.length
decreasing_by
  simp only [List.length_drop]
  exact Nat.sub_lt (List.length_pos.2 h) (by omega)

/-- Model of `UnitOfWork.BulkInsert` (part_005 lines 280-288).  The GORM
connection is opened with the default `SkipDefaultTransaction = false`, so the
batched create runs inside one transaction: on any failure nothing is
persisted and the call returns the wrapped error; on success all rows are
visible.  Returns `(result, table-after-call)`. -/
def bulkInsert (db : List Entity) (batch : List Entity) :
    Except GoError (List Entity) × List Entity :=
  match createInBatches db batch with
  | none => (.error (.wrap "failed to bulk insert entities" (.sentinel "UNIQUE constraint failed")), db)
  | some db2 => (.ok batch, db2)

/-- Transaction bookkeeping of `UnitOfWork[T]`: the `inTx` flag and the `tx`
handle (`some ()` = non-nil `*gorm.DB`, `none` = nil). -/
structure UoWState where
  inTx : Bool
  tx : Option Unit
deriving DecidableEq, Repr

/-- Calls the code under test issues on the backend transaction handle. -/
inductive TxAction where
  | commitCalled
  | rollbackCalled
deriving DecidableEq, Repr

/-- Model of `UnitOfWork.BeginTransaction` (part_005 lines 46-64).
`beginErr` is the outcome of the backend `Begin` (`none` = success). -/
def beginTransaction (s : UoWState) (beginErr : Option GoError) : Except GoError UoWState :=
  if s.inTx then .error (.errorf "transaction already in progress")
  else
    match beginErr with
    | some e => .error (.wrap "failed to begin transaction" e)
    | none => .ok { inTx := true, tx := some () }

/-- Model of `UnitOfWork.RollbackTransaction` (part_005 lines 83-91).  The Go
method returns nothing, so there is no error to model; a `none` result models
a nil-pointer panic in `uow.tx.Rollback()`, which the guard
`!uow.inTx || uow.tx == nil` prevents. -/
def rollbackTransaction (s : UoWState) : Option (UoWState × List TxAction) :=
  if !s.inTx || s.tx.isNone then some (s, [])
  else
    match s.tx with
    | some _ => some ({ inTx := false, tx := none }, [.rollbackCalled])
    | none => none

/-- Model of `UnitOfWork.CommitTransaction` (part_005 lines 67-80).
`commitErr` is the outcome of the backend `Commit` (`none` = success); on a
commit failure the method calls `RollbackTransaction` before returning the
wrapped error.  A `none` result models a nil-pointer panic in
`uow.tx.Commit()`. -/
def commitTransaction (s : UoWState) (commitErr : Option GoError) :
    Option (Except GoError Unit × UoWState × List TxAction) :=
  if !s.inTx then some (.error (.errorf "no active transaction to commit"), s, [])
  else
    match s.tx with
    | none => none
    | some _ =>
      match commitErr with
      | some e =>
        match rollbackTransaction s with
        | none => none
        | some (s2, acts) =>
          some (.error (.wrap "failed to commit transaction" e), s2, .commitCalled :: acts)
      | none => some (.ok (), { inTx := false, tx := none }, [.commitCalled])

/-- Model of `NewUnitOfWork` (part_005 lines 30-43): `connErr` is the outcome
of `gorm.Open` (`none` = success). -/
def newUnitOfWork (connErr : Option GoError) : Except GoError UoWState :=
  match connErr with
  | some e => .error (.wrap "failed to connect to database" e)
  | none => .ok { inTx := false, tx := none }

/-- Outcome of a Go function whose signature has no error result: it either
returns a value or panics. -/
inductive FactoryResult where
  | ok (uow : UoWState)
  | panicked (err : GoError)
deriving DecidableEq, Repr

/-- Model of `UnitOfWorkFactory.Create` (`pkg/postgres/factory.go` lines
22-29): on a construction error the factory panics; the return type
`persistence.IUnitOfWork[T]` has no error branch. -/
def factoryCreate (connErr : Option GoError) : FactoryResult :=
  match newUnitOfWork connErr with
  | .error e => .panicked e
  | .ok u => .ok u

/-- Model of `UnitOfWorkFactory.CreateWithContext` (`pkg/postgres/factory.go`
lines 32-40): same construction and panic path; the context it stores on the
instance is not otherwise observable here. -/
def factoryCreateWithContext (connErr : Option GoError) : FactoryResult :=
  match newUnitOfWork connErr with
  | .error e => .panicked e
  | .ok u => .ok u

/-- The order fragment `fmt.Sprintf("%s %s", field, direction)` passed to
`db.Order` by `FindAllWithPagination` (part_005 line 125) and
`GetTrashedWithPagination` (part_005 line 363): the field name is interpolated
verbatim. -/
def orderClause (field : String) (d : SortDirection) : String :=
  field ++ " " ++ d.render

/-- The full list of strings handed to `db.Order` for one pagination call. -/
def orderClauses (sort : List (String × SortDirection)) : List String :=
  sort.map fun fd => orderClause fd.1 fd.2

/-- Modelled from the spec: the allow-list of sortable column names that the
spec asserts sort fields are validated against ("field-name validated against
an allow-list to block injection").  No such list exists anywhere in the
source; this definition only serves to state that claim. -/
def sortFieldAllowList : List String :=
  ["id", "slug", "name", "email", "active", "created_at", "updated_at", "deleted_at"]

/-- The spec's sort-validation claim: a field name outside the allow-list is
never interpolated verbatim into the order step. -/
def claimSortFieldValidated : Prop :=
  ∀ (f : String) (d : SortDirection),
    f ∉ sortFieldAllowList → orderClause f d ≠ f ++ " " ++ d.render

end postgres

namespace identifier

/-- The `query map[string]interface{}` of `Identifier`, modelled as an
association list in first-insertion order (a deterministic stand-in for Go's
unspecified map iteration order); re-adding a key overwrites in place. -/
abbrev QueryMap := List (String × Value)

/-- Map write `i.query[k] = v`: overwrite if present, else append. -/
def qset : QueryMap → String → Value → QueryMap
  | [], k, v => [(k, v)]
  | (k0, v0) :: rest, k, v =>
    if k0 = k then (k, v) :: rest else (k0, v0) :: qset rest k v

/-- `Identifier.Equal` (identifier.go lines 46-49). -/
def Equal (q : QueryMap) (field : String) (v : Value) : QueryMap :=
  qset q field v

/-- `Identifier.In` (identifier.go lines 52-55): key `field + " IN"`. -/
def In (q : QueryMap) (field : String) (values : List Prim) : QueryMap :=
  qset q (field ++ " IN") (.list values)

/-- `Identifier.Like` (identifier.go lines 58-61). -/
def Like (q : QueryMap) (field : String) (pat : String) : QueryMap :=
  qset q (field ++ " LIKE") (.prim (.str pat))

/-- `Identifier.GreaterThan` (identifier.go lines 64-67). -/
def GreaterThan (q : QueryMap) (field : String) (v : Value) : QueryMap :=
  qset q (field ++ " >") v

/-- `Identifier.LessThan` (identifier.go lines 70-73). -/
def LessThan (q : QueryMap) (field : String) (v : Value) : QueryMap :=
  qset q (field ++ " <") v

/-- `Identifier.Between` (identifier.go lines 76-79): stores the pair. -/
def Between (q : QueryMap) (field : String) (lo hi : Prim) : QueryMap :=
  qset q (field ++ " BETWEEN") (.list [lo, hi])

/-- `Identifier.IsNull` (identifier.go lines 82-85). -/
def IsNull (q : QueryMap) (field : String) : QueryMap :=
  qset q (field ++ " IS NULL") (.prim (.bool true))

/-- `Identifier.IsNotNull` (identifier.go lines 88-91). -/
def IsNotNull (q : QueryMap) (field : String) : QueryMap :=
  qset q (field ++ " IS NOT NULL") (.prim (.bool true))

/-- `Identifier.Add` (identifier.go lines 94-97). -/
def Add (q : QueryMap) (key : String) (v : Value) : QueryMap :=
  qset q key v

/-- `Identifier.AddIf` (identifier.go lines 100-105). -/
def AddIf (cond : Bool) (q : QueryMap) (key : String) (v : Value) : QueryMap :=
  if cond then Add q key v else q

/-- Go `strings.Contains(key, " ")` on the key's characters. -/
def containsSpace : List Char → Bool
  | [] => false
  | c :: cs => c = ' ' || containsSpace cs

/-- Go `strings.SplitN(key, " ", 2)`: characters before the first space and
the remainder after it. -/
def breakAtSpace : List Char → List Char × List Char
  | [] => ([], [])
  | c :: cs =>
    if c = ' ' then ([], cs)
    else
      let p := breakAtSpace cs
      (c :: p.1, p.2)

/-- Go `strings.Repeat("?,", n-1) + "?"` for `n` IN-values.  Callers must
ensure `n ≥ 1`: for `n = 0` the Go expression panics (negative repeat count),
which `renderCond` models explicitly. -/
def placeholders (n : Nat) : String :=
  String.join (List.replicate (n - 1) "?,") ++ "?"

/-- Rendering of one stored condition by `Identifier.ToSQL` (identifier.go
lines 117-148).  `ok none` is a silently omitted segment (failed type
assertion or unmatched operator), `ok (some ...)` a produced clause with its
arguments, and `error` the `strings.Repeat` panic on an empty IN list. -/
def renderCond (key : String) (v : Value) : Except GoPanic (Option (String × List Value)) :=
  if containsSpace key.data then
    let p := breakAtSpace key.data
    let field := String.mk p.1
    let op := String.mk p.2
    if op = "IN" then
      match v with
      | .list vals =>
        if vals.isEmpty then .error .negativeRepeatCount
        else .ok (some (field ++ " IN (" ++ placeholders vals.length ++ ")", vals.map Value.prim))
      | _ => .ok none
    else if op = "LIKE" then
      .ok (some (field ++ " LIKE ?", [v]))
    else if op = ">" ∨ op = "<" ∨ op = ">=" ∨ op = "<=" then
      .ok (some (field ++ " " ++ op ++ " ?", [v]))
    else if op = "BETWEEN" then
      match v with
      | .list vals =>
        if vals.length = 2 then
          .ok (some (field ++ " BETWEEN ? AND ?", vals.map Value.prim))
        else .ok none
      | _ => .ok none
    else if op = "IS NULL" ∨ op = "IS NOT NULL" then
      .ok (some (field ++ " " ++ op, []))
    else .ok none
  else .ok (some (key ++ " = ?", [v]))

/-- The condition/argument accumulation loop of `ToSQL`; a panic in any
iteration aborts the whole call. -/
def toSQLAux : QueryMap → Except GoPanic (List String × List Value)
  | [] => .ok ([], [])
  | (k, v) :: rest =>
    match renderCond k v, toSQLAux rest with
    | .error p, _ => .error p
    | .ok _, .error p => .error p
    | .ok none, .ok cs => .ok cs
    | .ok (some (c, vs)), .ok (cs, args) => .ok (c :: cs, vs ++ args)

/-- Model of `Identifier.ToSQL` (identifier.go lines 113-152): renders every
stored condition, joins with " AND ", and returns the ordered argument list;
`error` models a Go panic escaping the call. -/
def ToSQL (q : QueryMap) : Except GoPanic (String × List Value) :=
  match toSQLAux q with
  | .error p => .error p
  | .ok (cs, args) => .ok (String.intercalate " AND " cs, args)

/-- The heap of live Go maps: a Go `map[string]interface{}` value is a
reference into this heap, addressed by index. -/
abbrev Heap := List QueryMap

/-- Reading a map reference. -/
def deref (h : Heap) (a : Nat) : QueryMap :=
  (h[a]?).getD []

/-- Allocating a fresh map holding `m`. -/
def allocMap (h : Heap) (m : QueryMap) : Heap × Nat :=
  (h ++ [m], h.length)

/-- `identifier.New()` (identifier.go lines 39-43): allocates an empty map. -/
def newIdent (h : Heap) : Heap × Nat :=
  allocMap h []

/-- `Identifier.Equal` acting on the identifier's heap cell `a`. -/
def EqualH (h : Heap) (a : Nat) (field : String) (v : Value) : Heap :=
  h.set a (Equal (deref h a) field v)

/-- `Identifier.Add` acting on the identifier's heap cell `a`. -/
def AddH (h : Heap) (a : Nat) (key : String) (v : Value) : Heap :=
  h.set a (Add (deref h a) key v)

/-- Model of `Identifier.ToMap` (identifier.go lines 108-110):
`return i.query` hands out the internal map itself, i.e. the same
reference, copying nothing. -/
def ToMapRef (h : Heap) (a : Nat) : Nat :=
  a

/-- Model of `Identifier.GetQuery` (identifier.go lines 183-189): copies the
stored conditions into a freshly allocated map and returns that reference. -/
def GetQuery (h : Heap) (a : Nat) : Heap × Nat :=
  allocMap h (deref h a)

end identifier

namespace witnesses

open domain

/-- Concrete 5-user table for the pagination witness (spec scenario:
users 1..5, all live). -/
def dbPage : List Entity :=
  [⟨1, "user-1", "User 1", none⟩, ⟨2, "user-2", "User 2", none⟩,
   ⟨3, "user-3", "User 3", none⟩, ⟨4, "user-4", "User 4", none⟩,
   ⟨5, "user-5", "User 5", none⟩]

/-- Concrete query params for the pagination witness: `Limit 2, Offset 1`,
sort by id ascending, no filter. -/
def qpPage : QueryParams :=
  { filter := none, sort := [("id", .asc)], includes := [], limit := 2, offset := 1 }

/-- Concrete two-user table for the soft-delete witness. -/
def dbSoft : List Entity :=
  [⟨1, "user-1", "User 1", none⟩, ⟨2, "user-2", "User 2", none⟩]

/-- Predicate of `identifier.New().Equal("id", 2)` on the modelled columns. -/
def predId2 : Entity → Bool :=
  fun e => e.id == 2

/-- Concrete one-row table for the bulk-insert witness. -/
def dbBulk : List Entity :=
  [⟨1, "taken", "Existing", none⟩]

/-- A batch whose second element collides with the stored slug. -/
def batchBulk : List Entity :=
  [⟨0, "fresh", "New A", none⟩, ⟨0, "taken", "New B", none⟩]

end witnesses

/-- Claim C5: for every Unit-of-Work state, RollbackTransaction never panics
and is idempotent, and — whenever the instance satisfies the representation
invariant that an active transaction has a non-nil handle — calling it when no
transaction is active leaves a state from which BeginTransaction succeeds. -/
theorem rollback_idempotent_and_safe (s : postgres.UoWState) :
    ∃ s2 acts, postgres.rollbackTransaction s = some (s2, acts) ∧
      postgres.rollbackTransaction s2 = some (s2, []) ∧
      ((s.inTx = true → s.tx.isSome) →
        s2.inTx = false ∧
        postgres.beginTransaction s2 none =
          .ok { inTx := true, tx := some () }) := by
  obtain ⟨c, t⟩ := s
  cases c with
  | false =>
    cases t with
    | none => exact ⟨⟨false, none⟩, [], rfl, rfl, fun _ => ⟨rfl, rfl⟩⟩
    | some u => cases u; exact ⟨⟨false, some ()⟩, [], rfl, rfl, fun _ => ⟨rfl, rfl⟩⟩
  | true =>
    cases t with
    | none => exact ⟨⟨true, none⟩, [], rfl, rfl, fun h => (Bool.false_ne_true (h rfl)).elim⟩
    | some u => cases u; exact ⟨⟨false, none⟩, [.rollbackCalled], rfl, rfl, fun _ => ⟨rfl, rfl⟩⟩

/-- Witness for C5 at a concrete idle state. -/
theorem rollback_idempotent_and_safe_witness :
    ∃ s2 acts,
      postgres.rollbackTransaction ⟨false, none⟩ = some (s2, acts) ∧
      postgres.rollbackTransaction s2 = some (s2, []) ∧
      ((false = true → (none : Option Unit).isSome) →
        s2.inTx = false ∧
        postgres.beginTransaction s2 none =
          .ok { inTx := true, tx := some () }) :=
  rollback_idempotent_and_safe ⟨false, none⟩

/-- Counterexample for claim C4: starting from a fresh Unit of Work, a second
BeginTransaction does fail, but the error it returns is the plain formatted
message from `fmt.Errorf` — it neither matches the `ErrTransactionAlreadyOpen`
sentinel under the unwrap chain nor is recognised by the taxonomy's
`IsTransaction` helper, so callers cannot branch on the error kind without
string matching. -/
theorem beginTransaction_error_unclassified_cex :
    postgres.beginTransaction ⟨false, none⟩ none =
      .ok { inTx := true, tx := some () } ∧
    postgres.beginTransaction ⟨true, some ()⟩ none =
      .error (.errorf "transaction already in progress") ∧
    GoError.is (.errorf "transaction already in progress")
      errs.ErrTransactionAlreadyOpen = false ∧
    errs.IsTransaction (.errorf "transaction already in progress") = false := by
  refine ⟨rfl, rfl, ?_, ?_⟩ <;> decide

/-- Claim C4 (amended): on an instance with an active transaction every
BeginTransaction call fails, whatever the backend would answer, but the error
is the unclassified `fmt.Errorf("transaction already in progress")`, which the
error taxonomy of `pkg/errors` does not recognise. -/
theorem beginTransaction_active_fails_unclassified
    (s : postgres.UoWState) (beginErr : Option GoError) (h : s.inTx = true) :
    postgres.beginTransaction s beginErr =
      .error (.errorf "transaction already in progress") ∧
    GoError.is (.errorf "transaction already in progress")
      errs.ErrTransactionAlreadyOpen = false ∧
    errs.IsTransaction (.errorf "transaction already in progress") = false := by
  refine ⟨?_, by decide, by decide⟩
  simp [postgres.beginTransaction, h]

/-- Witness for the amended C4 at a concrete active state. -/
theorem beginTransaction_active_fails_unclassified_witness :
    postgres.beginTransaction ⟨true, some ()⟩ none =
      .error (.errorf "transaction already in progress") ∧
    GoError.is (.errorf "transaction already in progress")
      errs.ErrTransactionAlreadyOpen = false ∧
    errs.IsTransaction (.errorf "transaction already in progress") = false :=
  beginTransaction_active_fails_unclassified ⟨true, some ()⟩ none rfl

/-- Claim C6: with an active transaction whose backend commit fails,
CommitTransaction does not panic, invokes a rollback on the handle before
returning, returns the wrapped commit error, and leaves the instance in the
idle state, from which a new transaction can begin. -/
theorem commit_failure_rolls_back_and_idles
    (s : postgres.UoWState) (e : GoError)
    (h1 : s.inTx = true) (h2 : s.tx = some ()) :
    postgres.commitTransaction s (some e) =
      some (.error (.wrap "failed to commit transaction" e),
        { inTx := false, tx := none },
        [.commitCalled, .rollbackCalled]) ∧
    postgres.beginTransaction { inTx := false, tx := none } none =
      .ok { inTx := true, tx := some () } := by
  obtain ⟨c, t⟩ := s
  cases h1
  cases h2
  exact ⟨rfl, rfl⟩

/-- Witness for C6 at a concrete active state and commit error. -/
theorem commit_failure_rolls_back_and_idles_witness :
    postgres.commitTransaction ⟨true, some ()⟩ (some (.sentinel "disk full")) =
      some (.error (.wrap "failed to commit transaction" (.sentinel "disk full")),
        { inTx := false, tx := none },
        [.commitCalled, .rollbackCalled]) ∧
    postgres.beginTransaction { inTx := false, tx := none } none =
      .ok { inTx := true, tx := some () } :=
  commit_failure_rolls_back_and_idles ⟨true, some ()⟩ (.sentinel "disk full") rfl rfl

/-- Claim C10: whenever establishing the database connection fails, both
factory methods panic with the wrapped connection error instead of returning
it — the `FactoryResult` type mirrors the Go signature, which has no error
branch, so a failed construction can only surface as a panic. -/
theorem factory_panics_on_connection_failure (e : GoError) :
    postgres.factoryCreate (some e) =
      .panicked (.wrap "failed to connect to database" e) ∧
    postgres.factoryCreateWithContext (some e) =
      .panicked (.wrap "failed to connect to database" e) :=
  ⟨rfl, rfl⟩

/-- Counterexample for claim C7: no allow-list validation exists — a sort key
chosen freely by the caller, here one embedding an SQL payload, is
interpolated verbatim into the string handed to the order step. -/
theorem sort_field_not_validated_cex : ¬ postgres.claimSortFieldValidated := by
  intro h
  exact h "id; DROP TABLE users; --" .asc (by decide) rfl

/-- Claim C7 (amended): the pagination sort step performs no validation of the
field name: for every field string, allow-listed or not, the fragment passed
to `db.Order` is exactly the field followed by the direction, so any
attacker-controlled sort key flows verbatim into the generated query. -/
theorem sort_field_interpolated_verbatim
    (sort : List (String × domain.SortDirection))
    (f : String) (d : domain.SortDirection) (hmem : (f, d) ∈ sort) :
    postgres.orderClauses sort = sort.map (fun fd => fd.1 ++ " " ++ fd.2.render) ∧
    (f ++ " " ++ d.render) ∈ postgres.orderClauses sort := by
  constructor
  · rfl
  · exact List.mem_map.2 ⟨(f, d), hmem, rfl⟩

/-- Witness for the amended C7 on a malicious one-key sort map. -/
theorem sort_field_interpolated_verbatim_witness :
    postgres.orderClauses [("id; DROP TABLE users; --", domain.SortDirection.asc)] =
      [("id; DROP TABLE users; --", domain.SortDirection.asc)].map
        (fun fd => fd.1 ++ " " ++ fd.2.render) ∧
    ("id; DROP TABLE users; --" ++ " " ++ domain.SortDirection.asc.render) ∈
      postgres.orderClauses [("id; DROP TABLE users; --", domain.SortDirection.asc)] :=
  sort_field_interpolated_verbatim _ "id; DROP TABLE users; --" .asc (List.mem_singleton.2 rfl)

/-- Claim C8, divergence witness: `In` with an empty value list makes `ToSQL`
panic (`strings.Repeat` with count `len(vals)-1 = -1`) instead of omitting the
segment, while `BETWEEN` conditions of wrong arity (here a one-element list
stored via `Add`) are indeed dropped softly, yielding an empty clause. -/
theorem toSQL_empty_in_panics :
    identifier.ToSQL (identifier.In [] "status" []) =
      .error .negativeRepeatCount ∧
    identifier.ToSQL (identifier.Add [] "age BETWEEN" (.list [.int 1])) =
      .ok ("", []) ∧
    identifier.ToSQL (identifier.In [] "status" [.str "a", .str "b"]) =
      .ok ("status IN (?,?)", [.prim (.str "a"), .prim (.str "b")]) :=
  ⟨rfl, rfl, rfl⟩

/-- Counterexample for claim C9: the map returned by `ToMap` is the builder's
internal map, not a snapshot — after `New()` a call to `Equal` changes the
mapping reachable through the reference `ToMap` handed out earlier. -/
theorem toMap_not_snapshot_cex :
    identifier.deref
        (identifier.EqualH (identifier.newIdent []).1 (identifier.newIdent []).2
          "a" (.prim (.int 1)))
        (identifier.ToMapRef (identifier.newIdent []).1 (identifier.newIdent []).2) ≠
      identifier.deref (identifier.newIdent []).1
        (identifier.ToMapRef (identifier.newIdent []).1 (identifier.newIdent []).2) := by
  decide

/-- Reading past an append inside the prefix. -/
theorem identifier_deref_append_left
    (h l : identifier.Heap) (a : Nat) (ha : a < h.length) :
    identifier.deref (h ++ l) a = identifier.deref h a := by
  simp [identifier.deref, List.getElem?_append_left ha]

/-- Reading the freshly appended cell. -/
theorem identifier_deref_append_self (h : identifier.Heap) (m : identifier.QueryMap) :
    identifier.deref (h ++ [m]) h.length = m := by
  simp [identifier.deref]

/-- Reading a just-written cell. -/
theorem identifier_deref_set_self
    (h : identifier.Heap) (a : Nat) (m : identifier.QueryMap) (ha : a < h.length) :
    identifier.deref (h.set a m) a = m := by
  simp [identifier.deref, List.getElem?_set_self', List.getElem?_eq_getElem ha]

/-- Writing one cell does not change another. -/
theorem identifier_deref_set_ne
    (h : identifier.Heap) (a b : Nat) (m : identifier.QueryMap) (hab : a ≠ b) :
    identifier.deref (h.set a m) b = identifier.deref h b := by
  simp [identifier.deref, List.getElem?_set_ne hab]

/-- Claim C9 (amended): `GetQuery`, not `ToMap`, returns the snapshot — for a
live identifier, mutating the builder via `Equal` after a `GetQuery` call
leaves the copied map unchanged, while the reference returned by `ToMap`
observes exactly the mutated internal map. -/
theorem getQuery_snapshot_toMap_alias
    (h : identifier.Heap) (a : Nat) (f : String) (v : Value)
    (ha : a < h.length) :
    identifier.deref
        (identifier.EqualH (identifier.GetQuery h a).1 a f v)
        (identifier.GetQuery h a).2 =
      identifier.deref h a ∧
    identifier.deref
        (identifier.EqualH (identifier.GetQuery h a).1 a f v)
        (identifier.ToMapRef (identifier.GetQuery h a).1 a) =
      identifier.Equal (identifier.deref h a) f v := by
  have hq : identifier.deref (h ++ [identifier.deref h a]) a = identifier.deref h a :=
    identifier_deref_append_left h [identifier.deref h a] a ha
  simp only [identifier.GetQuery, identifier.allocMap, identifier.EqualH,
    identifier.ToMapRef, hq]
  constructor
  · rw [identifier_deref_set_ne _ _ _ _ (Nat.ne_of_lt ha),
      identifier_deref_append_self]
  · rw [identifier_deref_set_self]
    simp
    omega

/-- Witness for the amended C9 on a one-identifier heap. -/
theorem getQuery_snapshot_toMap_alias_witness :
    identifier.deref
        (identifier.EqualH (identifier.GetQuery [[("a", Value.prim (.int 1))]] 0).1 0
          "b" (.prim (.int 2)))
        (identifier.GetQuery [[("a", Value.prim (.int 1))]] 0).2 =
      identifier.deref [[("a", Value.prim (.int 1))]] 0 ∧
    identifier.deref
        (identifier.EqualH (identifier.GetQuery [[("a", Value.prim (.int 1))]] 0).1 0
          "b" (.prim (.int 2)))
        (identifier.ToMapRef (identifier.GetQuery [[("a", Value.prim (.int 1))]] 0).1 0) =
      identifier.Equal (identifier.deref [[("a", Value.prim (.int 1))]] 0) "b" (.prim (.int 2)) :=
  getQuery_snapshot_toMap_alias [[("a", Value.prim (.int 1))]] 0 "b" (.prim (.int 2)) (by decide)

/-- Inserting into a sorted list grows the length by one. -/
theorem postgres_length_insertSorted (le : domain.Entity → domain.Entity → Bool)
    (x : domain.Entity) (l : List domain.Entity) :
    (postgres.insertSorted le x l).length = l.length + 1 := by
  induction l with
  | nil => rfl
  | cons y ys ih =>
    simp only [postgres.insertSorted]
    split
    · simp
    · simp [ih]

/-- Sorting preserves the number of rows. -/
theorem postgres_length_insertionSort (le : domain.Entity → domain.Entity → Bool)
    (l : List domain.Entity) :
    (postgres.insertionSort le l).length = l.length := by
  induction l with
  | nil => rfl
  | cons y ys ih => simp [postgres.insertionSort, postgres_length_insertSorted, ih]

/-- The `ORDER BY` step permutes rows, so it preserves the count. -/
theorem postgres_length_applySort (sort : List (String × domain.SortDirection))
    (l : List domain.Entity) :
    (postgres.applySort sort l).length = l.length := by
  unfold postgres.applySort
  split
  · rfl
  · exact postgres_length_insertionSort _ l

/-- Length of the materialized page for positive limit and nonnegative
offset: `min(L, max(0, N-O))` rows. -/
theorem postgres_length_paginate (limit offset : Int) (rows : List domain.Entity)
    (hL : 0 < limit) (hO : 0 ≤ offset) :
    ((postgres.paginate limit offset rows).length : Int) =
      min limit (max 0 ((rows.length : Int) - offset)) := by
  unfold postgres.paginate
  by_cases ho : offset > 0 <;>
    simp [ho, hL, List.length_take, List.length_drop] <;> omega

/-- Claim C1: for every table and query parameters, the total returned by
FindAllWithPagination is the size of the full filtered live population —
computed before limit/offset and therefore independent of them — and for
`Limit = L > 0` and `Offset = O ≥ 0` the page holds `min(L, max(0, N-O))`
rows. -/
theorem findAllWithPagination_total_and_page
    (db : List domain.Entity) (qp : domain.QueryParams)
    (hL : 0 < qp.limit) (hO : 0 ≤ qp.offset) :
    (postgres.findAllWithPagination db qp).2 =
      ((postgres.liveRows db).filter (postgres.filterFn qp.filter)).length ∧
    (∀ L O : Int,
      (postgres.findAllWithPagination db { qp with limit := L, offset := O }).2 =
        (postgres.findAllWithPagination db qp).2) ∧
    ((postgres.findAllWithPagination db qp).1.length : Int) =
      min qp.limit (max 0
        ((((postgres.liveRows db).filter (postgres.filterFn qp.filter)).length : Int)
          - qp.offset)) := by
  refine ⟨rfl, fun L O => rfl, ?_⟩
  show ((postgres.paginate qp.limit qp.offset
      (postgres.applySort qp.sort
        ((postgres.liveRows db).filter (postgres.filterFn qp.filter)))).length : Int) = _
  rw [postgres_length_paginate _ _ _ hL hO, postgres_length_applySort]

/-- Witness for C1 on the spec scenario: five live users, `Limit 2, Offset 1`,
sorted by id ascending — the page is users 2 and 3 and the total is 5. -/
theorem findAllWithPagination_total_and_page_witness :
    ((postgres.findAllWithPagination witnesses.dbPage witnesses.qpPage).2 =
        ((postgres.liveRows witnesses.dbPage).filter
          (postgres.filterFn witnesses.qpPage.filter)).length ∧
      (∀ L O : Int,
        (postgres.findAllWithPagination witnesses.dbPage
            { witnesses.qpPage with limit := L, offset := O }).2 =
          (postgres.findAllWithPagination witnesses.dbPage witnesses.qpPage).2) ∧
      ((postgres.findAllWithPagination witnesses.dbPage witnesses.qpPage).1.length : Int) =
        min witnesses.qpPage.limit (max 0
          ((((postgres.liveRows witnesses.dbPage).filter
              (postgres.filterFn witnesses.qpPage.filter)).length : Int)
            - witnesses.qpPage.offset))) ∧
    (postgres.findAllWithPagination witnesses.dbPage witnesses.qpPage).1 =
      [⟨2, "user-2", "User 2", none⟩, ⟨3, "user-3", "User 3", none⟩] ∧
    (postgres.findAllWithPagination witnesses.dbPage witnesses.qpPage).2 = 5 :=
  ⟨findAllWithPagination_total_and_page witnesses.dbPage witnesses.qpPage
      (by decide) (by decide),
    by decide, by decide⟩

/-- Splitting a sequential batch insert at an append. -/
theorem postgres_insertAll_append (l1 l2 : List domain.Entity) :
    ∀ db, postgres.insertAll db (l1 ++ l2) =
      (postgres.insertAll db l1).bind fun d => postgres.insertAll d l2 := by
  induction l1 with
  | nil => intro db; rfl
  | cons a l1 ih =>
    intro db
    simp only [List.cons_append, postgres.insertAll]
    cases postgres.insertOne db a with
    | none => rfl
    | some db2 => simpa using ih db2

/-- A successful sequential insert appends exactly the batch. -/
theorem postgres_insertAll_eq_append (l : List domain.Entity) :
    ∀ db db2, postgres.insertAll db l = some db2 → db2 = db ++ l := by
  induction l with
  | nil =>
    intro db db2 h
    simpa [postgres.insertAll] using (Option.some.inj h).symm
  | cons a l ih =>
    intro db db2 h
    simp only [postgres.insertAll] at h
    cases hins : postgres.insertOne db a with
    | none => rw [hins] at h; cases h
    | some d =>
      rw [hins] at h
      have hd : d = db ++ [a] := by
        unfold postgres.insertOne at hins
        split at hins
        · cases hins
        · exact (Option.some.inj hins).symm
      have := ih d db2 h
      simp [this, hd]

/-- The chunked batch loop of `CreateInBatches` computes the same result as
one sequential pass, bounded induction on the batch length. -/
theorem postgres_createInBatches_eq_insertAll_aux (n : Nat) :
    ∀ (batch : List domain.Entity), batch.length ≤ n →
      ∀ db, postgres.createInBatches db batch = postgres.insertAll db batch := by
  induction n with
  | zero =>
    intro batch hb db
    have hbatch : batch = [] := List.eq_nil_of_length_eq_zero (Nat.le_zero.1 hb)
    subst hbatch
    simp [postgres.createInBatches, postgres.insertAll]
  | succ n ih =>
    intro batch hb db
    by_cases h0 : batch = []
    · subst h0
      simp [postgres.createInBatches, postgres.insertAll]
    · rw [postgres.createInBatches]
      simp only [dif_neg h0]
      have hsplit := List.take_append_drop 100 batch
      conv_rhs => rw [← hsplit]
      rw [postgres_insertAll_append]
      cases hins : postgres.insertAll db (batch.take 100) with
      | none => rfl
      | some db2 =>
        have hlen : (batch.drop 100).length ≤ n := by
          have hpos : 0 < batch.length := List.length_pos.2 h0
          simp only [List.length_drop]
          omega
        simpa using ih (batch.drop 100) hlen db2

/-- The chunked batch loop equals one sequential pass. -/
theorem postgres_createInBatches_eq_insertAll (db batch : List domain.Entity) :
    postgres.createInBatches db batch = postgres.insertAll db batch :=
  postgres_createInBatches_eq_insertAll_aux batch.length batch le_rfl db

/-- A batch containing an item whose slug collides with the stored table, or
with an earlier batch item, makes the sequential insert fail. -/
theorem postgres_insertAll_conflict (pre : List domain.Entity) :
    ∀ db (e : domain.Entity) post,
      (e.slug ∈ postgres.slugs db ∨ e.slug ∈ postgres.slugs pre) →
      postgres.insertAll db (pre ++ e :: post) = none := by
  induction pre with
  | nil =>
    intro db e post hdup
    rcases hdup with h | h
    · simp [postgres.insertAll, postgres.insertOne, h]
    · simp [postgres.slugs] at h
  | cons a pre ih =>
    intro db e post hdup
    simp only [List.cons_append, postgres.insertAll]
    cases hins : postgres.insertOne db a with
    | none => rfl
    | some db2 =>
      have hdb2 : db2 = db ++ [a] := by
        unfold postgres.insertOne at hins
        split at hins
        · cases hins
        · exact (Option.some.inj hins).symm
      apply ih db2 e post
      rcases hdup with h | h
      · left
        rw [hdb2]
        simp only [postgres.slugs, List.map_append, List.mem_append]
        exact Or.inl (by simpa [postgres.slugs] using h)
      · simp only [postgres.slugs, List.map_cons, List.mem_cons] at h
        rcases h with h | h
        · left
          rw [hdb2]
          simp only [postgres.slugs, List.map_append, List.mem_append]
          exact Or.inr (by simp [h])
        · right
          simpa [postgres.slugs] using h

/-- Claim C3: when some batch item violates the slug uniqueness constraint
(against the stored table or an earlier item of the same batch), BulkInsert
returns an error and persists nothing: the table after the call is exactly the
table before it, so FindAll sees the pre-batch count. -/
theorem bulkInsert_atomic (db batch pre : List domain.Entity) (e : domain.Entity)
    (post : List domain.Entity)
    (hsplit : batch = pre ++ e :: post)
    (hdup : e.slug ∈ postgres.slugs db ∨ e.slug ∈ postgres.slugs pre) :
    (postgres.bulkInsert db batch).1 =
      .error (.wrap "failed to bulk insert entities"
        (.sentinel "UNIQUE constraint failed")) ∧
    (postgres.bulkInsert db batch).2 = db ∧
    (postgres.findAll (postgres.bulkInsert db batch).2).length =
      (postgres.findAll db).length := by
  have hnone : postgres.createInBatches db batch = none := by
    rw [postgres_createInBatches_eq_insertAll, hsplit]
    exact postgres_insertAll_conflict pre db e post hdup
  simp [postgres.bulkInsert, hnone]

/-- Witness for C3: one stored row with slug "taken" and a two-item batch
whose second item reuses that slug. -/
theorem bulkInsert_atomic_witness :
    (postgres.bulkInsert witnesses.dbBulk witnesses.batchBulk).1 =
      .error (.wrap "failed to bulk insert entities"
        (.sentinel "UNIQUE constraint failed")) ∧
    (postgres.bulkInsert witnesses.dbBulk witnesses.batchBulk).2 = witnesses.dbBulk ∧
    (postgres.findAll (postgres.bulkInsert witnesses.dbBulk witnesses.batchBulk).2).length =
      (postgres.findAll witnesses.dbBulk).length :=
  bulkInsert_atomic witnesses.dbBulk witnesses.batchBulk
    [⟨0, "fresh", "New A", none⟩] ⟨0, "taken", "New B", none⟩ []
    rfl (Or.inl (by decide))

/-- A list whose unique element satisfying `p` is `e` finds `e`. -/
theorem list_find_eq_some_of_unique {α : Type} (p : α → Bool) (e : α) :
    ∀ (l : List α), e ∈ l → (∀ x ∈ l, p x = true ↔ x = e) →
      l.find? p = some e := by
  intro l
  induction l with
  | nil => intro he _; cases he
  | cons a l ih =>
    intro he hu
    by_cases hpa : p a = true
    · have ha : a = e := (hu a (List.mem_cons_self a l)).1 hpa
      rw [List.find?_cons_of_pos _ hpa, ha]
    · rw [List.find?_cons_of_neg _ hpa]
      have hne : e ≠ a := fun h => hpa ((hu a (List.mem_cons_self a l)).2 h.symm)
      have he2 : e ∈ l := by
        rcases List.mem_cons.1 he with h | h
        · exact absurd h hne
        · exact h
      exact ih he2 fun x hx => hu x (List.mem_cons_of_mem a hx)

/-- Distinct rows of a table with pairwise distinct ids have distinct ids. -/
theorem domain_ids_ne_of_pairwise (db : List domain.Entity)
    (hids : db.Pairwise fun a b => a.id ≠ b.id)
    {x y : domain.Entity} (hx : x ∈ db) (hy : y ∈ db) (hxy : x ≠ y) :
    x.id ≠ y.id :=
  List.Pairwise.forall (fun _ _ h => h.symm) hids hx hy hxy

/-- Claim C2: for a table with distinct primary keys, a live entity `e`, and a
predicate over the regular columns whose only match in the table is `e`,
SoftDelete succeeds returning `e`; afterwards FindOneById and FindAll no
longer surface `e`'s row while GetTrashed does; and the subsequent Restore
succeeds and brings the table back to its original state, in which
FindOneById and FindAll return `e` and GetTrashed does not. -/
theorem softDelete_restore_roundtrip
    (db : List domain.Entity) (e : domain.Entity) (p : domain.Entity → Bool) (now : Nat)
    (hmem : e ∈ db) (hlive : e.deletedAt = none)
    (hids : db.Pairwise fun a b => a.id ≠ b.id)
    (huniq : ∀ x ∈ db, p x = true ↔ x = e)
    (hp : ∀ (x : domain.Entity) (t : Option Nat), p { x with deletedAt := t } = p x) :
    ∃ db2, postgres.softDelete p now db = some (e, db2) ∧
      postgres.findOneById db2 e.id = none ∧
      (∀ x ∈ postgres.findAll db2, x.id ≠ e.id) ∧
      (∃ t ∈ postgres.getTrashed db2, t.id = e.id) ∧
      postgres.restore p db2 = some ({ e with deletedAt := some now }, db) ∧
      postgres.findOneById db e.id = some e ∧
      e ∈ postgres.findAll db ∧
      (∀ t ∈ postgres.getTrashed db, t.id ≠ e.id) := by
  obtain ⟨eid, eslug, ename, edel⟩ := e
  simp only [domain.Entity.mk.injEq] at hlive
  subst hlive
  have hpe : p ⟨eid, eslug, ename, none⟩ = true := (huniq _ hmem).2 rfl
  have heL : (⟨eid, eslug, ename, none⟩ : domain.Entity) ∈ postgres.liveRows db :=
    List.mem_filter.2 ⟨hmem, rfl⟩
  have hfind : (postgres.liveRows db).find? p = some ⟨eid, eslug, ename, none⟩ :=
    list_find_eq_some_of_unique p _ _ heL fun x hx => huniq x (List.mem_filter.1 hx).1
  have hidne : ∀ x ∈ db, x ≠ ⟨eid, eslug, ename, none⟩ → x.id ≠ eid := fun x hx hxe =>
    domain_ids_ne_of_pairwise db hids hx hmem hxe
  have hFmem : ∀ x ∈ db,
      (if p x && x.id == eid && x.deletedAt.isNone
        then { x with deletedAt := some now } else x) =
      (if x = ⟨eid, eslug, ename, none⟩
        then (⟨eid, eslug, ename, some now⟩ : domain.Entity) else x) := by
    intro x hx
    by_cases hxe : x = (⟨eid, eslug, ename, none⟩ : domain.Entity)
    · subst hxe
      simp [hpe]
    · have hpx : p x = false := by
        cases hc : p x
        · rfl
        · exact absurd ((huniq x hx).1 hc) hxe
      simp [hpx, hxe]
  have hmem2 : ∀ x, x ∈ (db.map fun x =>
      if p x && x.id == eid && x.deletedAt.isNone
      then { x with deletedAt := some now } else x) →
      x = (⟨eid, eslug, ename, some now⟩ : domain.Entity) ∨
        (x ∈ db ∧ x ≠ ⟨eid, eslug, ename, none⟩) := by
    intro x hx
    rw [List.map_congr_left hFmem] at hx
    obtain ⟨y, hy, hyx⟩ := List.mem_map.1 hx
    by_cases hye : y = (⟨eid, eslug, ename, none⟩ : domain.Entity)
    · left; rw [← hyx, hye]; simp
    · right
      have hxy : x = y := by rw [← hyx]; simp [hye]
      exact hxy ▸ ⟨hy, hye⟩
  have he2mem : (⟨eid, eslug, ename, some now⟩ : domain.Entity) ∈ (db.map fun x =>
      if p x && x.id == eid && x.deletedAt.isNone
      then { x with deletedAt := some now } else x) := by
    rw [List.map_congr_left hFmem]
    exact List.mem_map.2 ⟨⟨eid, eslug, ename, none⟩, hmem, by simp⟩
  refine ⟨db.map fun x =>
      if p x && x.id == eid && x.deletedAt.isNone
      then { x with deletedAt := some now } else x, ?_, ?_, ?_, ?_, ?_, ?_, heL, ?_⟩
  · -- SoftDelete finds e and marks its row
    simp [postgres.softDelete, hfind]
  · -- FindOneById after the soft delete: no live row carries the id
    apply List.find?_eq_none.2
    intro x hx
    obtain ⟨hxdb, hxlive⟩ := List.mem_filter.1 hx
    rcases hmem2 x hxdb with h | ⟨hxdb0, hxe⟩
    · subst h; simp at hxlive
    · simpa using hidne x hxdb0 hxe
  · -- FindAll after the soft delete: no live row carries the id
    intro x hx
    obtain ⟨hxdb, hxlive⟩ := List.mem_filter.1 hx
    rcases hmem2 x hxdb with h | ⟨hxdb0, hxe⟩
    · subst h; simp at hxlive
    · exact hidne x hxdb0 hxe
  · -- GetTrashed after the soft delete holds the row with e's id
    exact ⟨⟨eid, eslug, ename, some now⟩,
      List.mem_filter.2 ⟨he2mem, rfl⟩, rfl⟩
  · -- Restore finds the trashed row and rebuilds the original table
    have hpe2 : p ⟨eid, eslug, ename, some now⟩ = true := by
      have := hp ⟨eid, eslug, ename, none⟩ (some now)
      simpa [this] using hpe
    have hfind2 : ((db.map fun x =>
          if p x && x.id == eid && x.deletedAt.isNone
          then { x with deletedAt := some now } else x).filter
            fun x => x.deletedAt.isSome).find? p =
          some ⟨eid, eslug, ename, some now⟩ := by
      apply list_find_eq_some_of_unique
      · exact List.mem_filter.2 ⟨he2mem, rfl⟩
      · intro x hx
        obtain ⟨hxdb, hxtr⟩ := List.mem_filter.1 hx
        rcases hmem2 x hxdb with h | ⟨hxdb0, hxe⟩
        · subst h
          exact ⟨fun _ => rfl, fun _ => hpe2⟩
        · have hpx : p x = false := by
            cases hc : p x
            · rfl
            · exact absurd ((huniq x hxdb0).1 hc) hxe
          constructor
          · intro hcx; rw [hpx] at hcx; cases hcx
          · intro hcx
            exact absurd (by rw [hcx]) (hidne x hxdb0 hxe)
    show postgres.restore p _ = some (⟨eid, eslug, ename, some now⟩, db)
    simp only [postgres.restore, hfind2, Option.some.injEq, Prod.mk.injEq, true_and]
    rw [List.map_congr_left hFmem, List.map_map]
    have hback : ∀ y ∈ db,
        ((fun x => if x.id == (⟨eid, eslug, ename, some now⟩ : domain.Entity).id
            then { x with deletedAt := none } else x) ∘
          fun x => if x = (⟨eid, eslug, ename, none⟩ : domain.Entity)
            then (⟨eid, eslug, ename, some now⟩ : domain.Entity) else x) y = y := by
      intro y hy
      by_cases hye : y = (⟨eid, eslug, ename, none⟩ : domain.Entity)
      · subst hye; simp
      · have := hidne y hy hye
        simp [Function.comp, hye, this]
    rw [List.map_congr_left hback]
    simp
  · -- FindOneById before the soft delete returns e
    apply list_find_eq_some_of_unique
    · exact heL
    · intro x hx
      obtain ⟨hxdb, _⟩ := List.mem_filter.1 hx
      constructor
      · intro hbeq
        by_contra hxe
        exact absurd (by simpa using hbeq) (hidne x hxdb hxe)
      · intro h; subst h; simp
  · -- GetTrashed before the soft delete has no row with e's id
    intro t ht
    obtain ⟨htdb, httr⟩ := List.mem_filter.1 ht
    have htne : t ≠ (⟨eid, eslug, ename, none⟩ : domain.Entity) := by
      intro h; rw [h] at httr; simp at httr
    exact hidne t htdb htne

/-- Witness for C2: two live users, the predicate of `Equal("id", 2)`, and
time 7. -/
theorem softDelete_restore_roundtrip_witness :
    ∃ db2, postgres.softDelete witnesses.predId2 7 witnesses.dbSoft =
        some (⟨2, "user-2", "User 2", none⟩, db2) ∧
      postgres.findOneById db2 2 = none ∧
      (∀ x ∈ postgres.findAll db2, x.id ≠ 2) ∧
      (∃ t ∈ postgres.getTrashed db2, t.id = 2) ∧
      postgres.restore witnesses.predId2 db2 =
        some (⟨2, "user-2", "User 2", some 7⟩, witnesses.dbSoft) ∧
      postgres.findOneById witnesses.dbSoft 2 = some ⟨2, "user-2", "User 2", none⟩ ∧
      (⟨2, "user-2", "User 2", none⟩ : domain.Entity) ∈ postgres.findAll witnesses.dbSoft ∧
      (∀ t ∈ postgres.getTrashed witnesses.dbSoft, t.id ≠ 2) :=
  softDelete_restore_roundtrip witnesses.dbSoft ⟨2, "user-2", "User 2", none⟩
    witnesses.predId2 7 (by decide) rfl (by decide) (by decide) (fun x t => rfl)
